import Mathlib

/-!
Verification development for the Tiktok2Shorts video-processing pipeline.

The scheduler model below is a shallow embedding of the job queue logic of
`src/gui/process_tab.py` (class `ProcessTab`): the queue is a list of job
records, `currently_processing` is the single-flight flag, and the worker
thread is modelled by recording the integer index it was started with
(`threadIdx`) and by a `finish` event that performs the completion writes of
`_process_video_thread`.  Filesystem checks and the probe are sampled as
booleans at the moment the corresponding call happens in the source.

The encoder model is a shallow embedding of
`src/processor/ffmpeg_handler.py` (`FFmpegHandler.process_video` and
`_generate_thumbnail`): the filter graph is a list of labelled stages, the
command line is a list of argument tokens (numeric arguments kept as
numbers rather than as decimal renderings), and the per-job random draws
are passed in as parameters.
-/

namespace Tiktok2Shorts

/-- Job lifecycle states; `processing` is the "Processing"/Active state of
`process_tab.py`, the others are "Queued", "Completed", "Failed". -/
inductive Status where
  | queued
  | processing
  | completed
  | failed
deriving DecidableEq, Repr

/-- One record of `ProcessTab.processing_queue` (the dict literal built in
`add_video`): path, title, channel data, status, progress, output path and
the optional "error" key. -/
structure QItem where
  videoPath : String
  title : String
  channelId : String
  channelName : String
  status : Status
  progress : Nat
  outputPath : Option String
  error : Option String
deriving DecidableEq, Repr

/-- Scheduler state: the queue list, the `currently_processing` flag, and
the index held by the running worker thread (if one was started). -/
structure SchedState where
  queue : List QItem
  currentlyProcessing : Bool
  threadIdx : Option Nat
deriving DecidableEq, Repr

/-- The initial `ProcessTab` state: empty queue, not processing. -/
def initState : SchedState := ⟨[], false, none⟩

/-- Python `list.insert(n, a)`: insert before position `n`, clamping to the
end of the list. -/
def insertAt : Nat → α → List α → List α
  | 0, a, l => a :: l
  | _ + 1, a, [] => [a]
  | n + 1, a, x :: xs => x :: insertAt n a xs

/-- `os.path.basename` restricted to forward slashes (the only separator
relevant to the model). -/
def basename (p : String) : String :=
  (p.splitOn "/").getLastD p

/-- The `for i, item in enumerate(...)` search loops of the source: index
of the first element satisfying `p`, if any. -/
def findIdxP (p : α → Bool) : List α → Option Nat
  | [] => none
  | x :: xs => if p x then some 0 else (findIdxP p xs).map (· + 1)

/-- `ProcessTab.process_item(index)`.  Out-of-range indices return; if a
job is already processing the target is popped and re-inserted right after
the first item with status "Processing" (or at the front when none is
found); otherwise the target becomes "Processing" with progress 0, the
flag is set and a worker thread is started with this index. -/
def processItem (i : Nat) (s : SchedState) : SchedState :=
  if h : i < s.queue.length then
    if s.currentlyProcessing then
      let it := s.queue.get ⟨i, h⟩
      let rest := s.queue.eraseIdx i
      let q' :=
        match findIdxP (fun x => x.status == Status.processing) rest with
        | some k => insertAt (k + 1) it rest
        | none => it :: rest
      { s with queue := q' }
    else
      { queue := s.queue.set i
          { s.queue.get ⟨i, h⟩ with status := Status.processing, progress := 0 },
        currentlyProcessing := true,
        threadIdx := some i }
  else s

/-- `ProcessTab.process_next()`: if idle, process the first "Queued" item. -/
def processNext (s : SchedState) : SchedState :=
  if s.currentlyProcessing then s
  else
    match findIdxP (fun it => it.status == Status.queued) s.queue with
    | some i => processItem i s
    | none => s

/-- `ProcessTab.add_video(video_path, title)`: reject missing files
(`os.path.exists` sampled as `fsOk`), reject probe failures
(`get_video_info` sampled as `probeOk`), reject duplicate paths; otherwise
append a "Queued" record and, when idle and the queue now has exactly one
item, auto-start via `process_next`. -/
def addVideo (fsOk probeOk : Bool) (videoPath title channelId channelName : String)
    (s : SchedState) : SchedState :=
  if fsOk = false then s
  else if probeOk = false then s
  else if s.queue.any (fun it => it.videoPath == videoPath) then s
  else
    let t := if title = "" then basename videoPath else title
    let item : QItem :=
      { videoPath := videoPath, title := t, channelId := channelId,
        channelName := channelName, status := Status.queued, progress := 0,
        outputPath := none, error := none }
    let s' := { s with queue := s.queue ++ [item] }
    if s'.currentlyProcessing = false ∧ s'.queue.length = 1 then processNext s' else s'

/-- `ProcessTab.retry_item(index)`: reset the item at `index` to "Queued"
with progress 0 and no error, then start processing it when idle.  The
source performs no check that the item was "Failed". -/
def retryItem (i : Nat) (s : SchedState) : SchedState :=
  if h : i < s.queue.length then
    let it' := { s.queue.get ⟨i, h⟩ with
                 status := Status.queued, progress := 0, error := none }
    let s' := { s with queue := s.queue.set i it' }
    if s'.currentlyProcessing then s' else processItem i s'
  else s

/-- `ProcessTab.remove_item(index)`: only "Queued", "Failed" or
"Completed" items may be removed. -/
def removeItem (i : Nat) (s : SchedState) : SchedState :=
  if h : i < s.queue.length then
    let st := (s.queue.get ⟨i, h⟩).status
    if st == Status.queued || st == Status.failed || st == Status.completed then
      { s with queue := s.queue.eraseIdx i }
    else s
  else s

/-- `ProcessTab.clear_queue()` (with the confirmation answered "Yes"):
rejected while processing, otherwise empties the queue. -/
def clearQueue (s : SchedState) : SchedState :=
  if s.currentlyProcessing then s else { s with queue := [] }

/-- Completion half of `ProcessTab._process_video_thread`: writes through
the integer index the thread was started with.  On success the record at
that index becomes "Completed" with progress 100 and the output path; on
failure it becomes "Failed" with progress 0 and the error message.  The
`finally` block clears the flag and, when any "Queued" item remains, calls
`process_next` (an out-of-range index at completion time performs no
status write, mirroring the `IndexError` skipping the assignments while
the `finally` block still runs). -/
def finish (outcome : Except String String) (s : SchedState) : SchedState :=
  match s.threadIdx with
  | none => s
  | some j =>
    let s1 :=
      if h : j < s.queue.length then
        let it := s.queue.get ⟨j, h⟩
        let it' :=
          match outcome with
          | Except.ok out =>
            { it with status := Status.completed, progress := 100, outputPath := some out }
          | Except.error e =>
            { it with status := Status.failed, progress := 0, error := some e }
        { s with queue := s.queue.set j it' }
      else s
    let s2 := { s1 with currentlyProcessing := false, threadIdx := none }
    if s2.queue.any (fun it => it.status == Status.queued) then processNext s2 else s2

/-- The externally triggerable events of the tab: user actions on the
widgets plus the worker thread completing with a success or an error. -/
inductive Op where
  | add (fsOk probeOk : Bool) (videoPath title channelId channelName : String)
  | processIt (i : Nat)
  | next
  | retry (i : Nat)
  | remove (i : Nat)
  | clear
  | finish (outcome : Except String String)

/-- Apply one event to the scheduler state. -/
def applyOp : Op → SchedState → SchedState
  | Op.add fsOk probeOk p t cid cn, s => addVideo fsOk probeOk p t cid cn s
  | Op.processIt i, s => processItem i s
  | Op.next, s => processNext s
  | Op.retry i, s => retryItem i s
  | Op.remove i, s => removeItem i s
  | Op.clear, s => clearQueue s
  | Op.finish o, s => finish o s

/-- Run a sequence of events from a state. -/
def run (ops : List Op) (s : SchedState) : SchedState :=
  ops.foldl (fun st op => applyOp op st) s

/-- Number of jobs currently in the "Processing" state. -/
def countProcessing (s : SchedState) : Nat :=
  s.queue.countP (fun it => it.status == Status.processing)

/-- The `processing` section of the configuration as read by
`FFmpegHandler.process_video` via `config.get`, with the source's default
values. -/
structure Processing where
  color_saturation : ℚ := 1
  brightness : ℚ := 1
  denoise_strength : ℚ := 3
  sharpness : ℚ := 3 / 2
  watermark_opacity : ℚ := 4 / 5
  speed_randomization : ℚ := 1 / 20
  zoom_factor : ℚ := 51 / 50
  pixel_shift : ℤ := 1
  audio_normalization : Bool := true
  crf : ℤ := 23
  bitrate : String := "2M"
  threads : ℤ := 4
deriving DecidableEq, Repr

/-- One ffmpeg filter of the `-filter_complex` chain built in
`process_video`, tagged by effect with its numeric parameters. -/
inductive FilterKind where
  | canvas
  | saturation (s : ℚ)
  | brightness (b : ℚ)
  | denoise (d : ℚ)
  | sharpen (s : ℚ)
  | overlay (opacity : ℚ)
  | setpts (factor : ℚ)
  | zoomscale (z : ℚ)
  | cropshift (x y : ℤ)
deriving DecidableEq, Repr

/-- A filter stage `[inp]filter[out]` of the chain. -/
structure Stage where
  inp : String
  kind : FilterKind
  out : String
deriving DecidableEq, Repr

/-- Builder state: the accumulated `filter_parts` plus the
`current_input` / `current_output` label variables of the source. -/
structure BuildSt where
  parts : List Stage
  ci : String
  co : String
deriving DecidableEq, Repr

/-- Emit one stage reading `ci`, writing `co`, then advance the labels to
`(co, nxt)` exactly as the source does after appending a filter part. -/
def emit (k : FilterKind) (nxt : String) (b : BuildSt) : BuildSt :=
  { parts := b.parts ++ [⟨b.ci, k, b.co⟩], ci := b.co, co := nxt }

/-- The filter-chain construction of `process_video` (lines 127-224):
canvas normalization and the two `eq` tonal stages are unconditional; the
remaining stages are guarded exactly as in the source.  `wm` is the value
of `watermark_path and os.path.exists(watermark_path)`; `randomSpeed` is
the per-job draw `1.0 + random.random() * speed_randomization`; `shiftX`,
`shiftY` are the per-job `random.randint(-pixel_shift, pixel_shift)`
draws.  Returns the stage list and the final `current_input` label, which
is the label mapped as the encoder's video output. -/
def buildFilterChain (p : Processing) (wm : Bool) (randomSpeed : ℚ)
    (shiftX shiftY : ℤ) : List Stage × String :=
  let b : BuildSt := ⟨[], "0:v", "v1"⟩
  let b := emit FilterKind.canvas "v2" b
  let b := emit (FilterKind.saturation p.color_saturation) "v3" b
  let b := emit (FilterKind.brightness (p.brightness - 1)) "v4" b
  let b := if p.denoise_strength > 0 then emit (FilterKind.denoise p.denoise_strength) "v5" b else b
  let b := if p.sharpness > 0 then emit (FilterKind.sharpen p.sharpness) "v6" b else b
  let b := if wm then emit (FilterKind.overlay p.watermark_opacity) "v7" b else b
  let b := if p.speed_randomization > 0 then emit (FilterKind.setpts (1 / randomSpeed)) "v8" b else b
  let b := if p.zoom_factor > 1 then emit (FilterKind.zoomscale p.zoom_factor) "v9" b else b
  let b := if p.pixel_shift > 0 then emit (FilterKind.cropshift shiftX shiftY) "vout" b else b
  (b.parts, b.ci)

/-- One token of the assembled ffmpeg argument list.  Numeric arguments
(`str(duration)`, `str(crf)`, `str(threads)`) are kept as numbers instead
of decimal renderings, and the filter graph is kept structured. -/
inductive Arg where
  | s (v : String)
  | q (v : ℚ)
  | z (v : ℤ)
  | filters (v : List Stage)
deriving DecidableEq, Repr

/-- Truthiness of `watermark_path and os.path.exists(watermark_path)`
(Python: `None` and the empty string are falsy). -/
def wmCond (wp : Option String) (fsOk : String → Bool) : Bool :=
  match wp with
  | none => false
  | some w => (w != "") && fsOk w

/-- The ffmpeg command assembled by `process_video` (lines 227-270): input,
optional watermark input, filter graph, video/audio mapping, the `-t`
duration cap guarded by `if duration:` (Python truthiness: absent when the
probed duration is `None` or zero), the optional loudness filter, and the
fixed output options. -/
def buildCommand (ffmpegPath : String) (p : Processing) (wp : Option String)
    (fsOk : String → Bool) (inputPath outputPath : String) (duration : Option ℚ)
    (randomSpeed : ℚ) (shiftX shiftY : ℤ) : List Arg :=
  let r := buildFilterChain p (wmCond wp fsOk) randomSpeed shiftX shiftY
  [Arg.s ffmpegPath, Arg.s "-y", Arg.s "-i", Arg.s inputPath]
  ++ (match wp with
      | some w => if (w != "") && fsOk w then [Arg.s "-i", Arg.s w] else []
      | none => [])
  ++ [Arg.s "-filter_complex", Arg.filters r.1,
      Arg.s "-map", Arg.s ("[" ++ r.2 ++ "]"), Arg.s "-map", Arg.s "0:a"]
  ++ (match duration with
      | some d => if d = 0 then [] else [Arg.s "-t", Arg.q d]
      | none => [])
  ++ (if p.audio_normalization then [Arg.s "-af", Arg.s "loudnorm=I=-16:LRA=11:TP=-1.5"] else [])
  ++ [Arg.s "-c:v", Arg.s "libx264", Arg.s "-preset", Arg.s "medium",
      Arg.s "-crf", Arg.z p.crf, Arg.s "-b:v", Arg.s p.bitrate,
      Arg.s "-c:a", Arg.s "aac", Arg.s "-b:a", Arg.s "192k",
      Arg.s "-threads", Arg.z p.threads, Arg.s "-movflags", Arg.s "+faststart",
      Arg.s outputPath]

/-- `process_video` up to the point the encoder is launched: a missing
input raises `FileNotFoundError` before anything else; otherwise the
command is assembled. -/
def processVideo (fsOk : String → Bool) (ffmpegPath : String) (p : Processing)
    (wp : Option String) (inputPath outputPath : String) (duration : Option ℚ)
    (randomSpeed : ℚ) (shiftX shiftY : ℤ) : Except String (List Arg) :=
  if fsOk inputPath then
    Except.ok (buildCommand ffmpegPath p wp fsOk inputPath outputPath duration
      randomSpeed shiftX shiftY)
  else Except.error ("Input video not found: " ++ inputPath)

/-- The error message of the `RuntimeError` raised on a non-zero encoder
exit (line 334). -/
def encodeErrMsg (returnCode : ℤ) : String :=
  "FFmpeg processing failed with return code: " ++ toString returnCode

/-- Observable outcome of the encoder-run tail of `process_video`
(lines 327-355): the raised error if any, whether the partial output file
was removed, whether `_generate_thumbnail` was reached, and the reported
output path. -/
structure RunResult where
  err : Option String
  outputRemoved : Bool
  thumbnailAttempted : Bool
  reportedOutput : Option String
deriving DecidableEq, Repr

/-- Non-zero exit: raise, delete the partial output when it exists, no
thumbnail; zero exit: generate the thumbnail and return the output path. -/
def runEncoder (returnCode : ℤ) (outputExists : Bool) (outputPath : String) : RunResult :=
  if returnCode ≠ 0 then
    { err := some (encodeErrMsg returnCode), outputRemoved := outputExists,
      thumbnailAttempted := false, reportedOutput := none }
  else
    { err := none, outputRemoved := false,
      thumbnailAttempted := true, reportedOutput := some outputPath }

/-- Per-channel configuration entry (`channels` in the config). -/
structure ChannelCfg where
  name : String
  watermark : Option String
deriving DecidableEq, Repr

/-- Application configuration visible to the handler at build time. -/
structure AppConfig where
  ffmpeg_path : String := "ffmpeg"
  processing : Processing := {}
  channels : List (String × ChannelCfg) := []
deriving Repr

/-- The watermark-path resolution of `process_video` (lines 102-112):
channel-specific settings apply only for a truthy channel id present in
`channels`, and `watermark` must itself be truthy. -/
def getWatermark (cfg : AppConfig) (channelId : String) : Option String :=
  if channelId = "" then none
  else
    match cfg.channels.lookup channelId with
    | none => none
    | some ch =>
      match ch.watermark with
      | none => none
      | some w => if w = "" then none else some w

/-- The encoder invocation built when the scheduler dispatches a queued
item: `_process_video_thread` passes the item's `video_path` and
`channel_id` to `FFmpegHandler.process_video`, which reads the global
configuration at that moment. -/
def dispatchCommand (cfg : AppConfig) (fsOk : String → Bool) (it : QItem)
    (outputPath : String) (duration : Option ℚ) (randomSpeed : ℚ)
    (shiftX shiftY : ℤ) : Except String (List Arg) :=
  processVideo fsOk cfg.ffmpeg_path cfg.processing (getWatermark cfg it.channelId)
    it.videoPath outputPath duration randomSpeed shiftX shiftY

/-- `config.set("processing.crf", c)`: mutate one key of the global
configuration. -/
def setCrf (cfg : AppConfig) (c : ℤ) : AppConfig :=
  { cfg with processing := { cfg.processing with crf := c } }

/-- Label continuity: the first stage reads `l`, and every following stage
reads the label the previous stage wrote. -/
def chained : String → List Stage → Prop
  | _, [] => True
  | l, st :: rest => st.inp = l ∧ chained st.out rest

theorem findIdxP_lt_length {p : α → Bool} {l : List α} {i : Nat}
    (h : findIdxP p l = some i) : i < l.length := by
  induction l generalizing i with
  | nil => simp [findIdxP] at h
  | cons x xs ih =>
    rw [findIdxP] at h
    split at h
    · injection h with h
      subst h
      simp
    · cases h' : findIdxP p xs with
      | none => simp [h'] at h
      | some k =>
        simp [h'] at h
        subst h
        simpa using Nat.succ_lt_succ (ih h')

theorem findIdxP_true {p : α → Bool} {l : List α} {i : Nat}
    (h : findIdxP p l = some i) (hlt : i < l.length) : p (l.get ⟨i, hlt⟩) = true := by
  induction l generalizing i with
  | nil => simp [findIdxP] at h
  | cons x xs ih =>
    rw [findIdxP] at h
    split at h
    · simp at h
      subst h
      simpa
    · cases h' : findIdxP p xs with
      | none => simp [h'] at h
      | some k =>
        simp [h'] at h
        subst h
        exact ih h' (by simpa using Nat.lt_of_succ_lt_succ hlt)

theorem findIdxP_prefix {p : α → Bool} {xs : List α} {y : α} (ys : List α)
    (hxs : ∀ x ∈ xs, p x = false) (hy : p y = true) :
    findIdxP p (xs ++ y :: ys) = some xs.length := by
  induction xs with
  | nil => simp [findIdxP, hy]
  | cons x xs ih =>
    have hx : p x = false := hxs x (List.mem_cons_self x xs)
    simp only [List.cons_append, findIdxP, hx, List.append_eq,
      Bool.false_eq_true, if_false]
    rw [ih (fun a ha => hxs a (List.mem_cons_of_mem x ha))]
    simp

theorem findIdxP_any {p : α → Bool} {l : List α} {i : Nat}
    (h : findIdxP p l = some i) : l.any p = true := by
  induction l generalizing i with
  | nil => simp [findIdxP] at h
  | cons x xs ih =>
    rw [findIdxP] at h
    split at h
    · simp_all
    · cases h' : findIdxP p xs with
      | none => simp [h'] at h
      | some k => simp_all [ih h']

theorem insertAt_succ_append (xs : List α) (y a : α) (ys : List α) :
    insertAt (xs.length + 1) a (xs ++ y :: ys) = xs ++ y :: a :: ys := by
  induction xs with
  | nil => rfl
  | cons x xs ih => simpa [insertAt] using ih

theorem insertAt_perm (n : Nat) (a : α) (l : List α) : (insertAt n a l).Perm (a :: l) := by
  induction l generalizing n with
  | nil => cases n <;> simp [insertAt]
  | cons x xs ih =>
    cases n with
    | zero => simp [insertAt]
    | succ m =>
      exact List.Perm.trans (List.Perm.cons x (ih m)) (List.Perm.swap a x xs)

theorem perm_get_cons_eraseIdx (l : List α) (i : Nat) (h : i < l.length) :
    l.Perm (l.get ⟨i, h⟩ :: l.eraseIdx i) := by
  rw [List.eraseIdx_eq_take_drop_succ]
  conv_lhs => rw [← List.take_append_drop i l]
  have hd : l.drop i = l.get ⟨i, h⟩ :: l.drop (i + 1) := by
    rw [List.get_eq_getElem]
    exact (List.getElem_cons_drop l i h).symm
  rw [hd]
  exact List.perm_middle

theorem map_set_same (f : α → β) (l : List α) (i : Nat) (a : α) (h : i < l.length)
    (hf : f a = f (l.get ⟨i, h⟩)) : (l.set i a).map f = l.map f := by
  induction l generalizing i with
  | nil => simp at h
  | cons x xs ih =>
    cases i with
    | zero => simpa using hf
    | succ m =>
      simp only [List.set_cons_succ, List.map_cons]
      rw [ih m (by simpa using Nat.lt_of_succ_lt_succ h) (by simpa using hf)]

theorem findIdxP_none_any {p : α → Bool} {l : List α}
    (h : findIdxP p l = none) : l.any p = false := by
  induction l with
  | nil => simp
  | cons x xs ih =>
    rw [findIdxP] at h
    split at h
    · simp at h
    · cases h' : findIdxP p xs with
      | none => simp_all
      | some k => simp [h'] at h

/-- The event sequence exhibiting the single-flight violation: job X is
submitted and fails; A is submitted (no auto-start: the queue is not a
singleton) and manually processed; B is submitted; X is retried while A is
encoding (the retry performs no state check and does not dispatch) and
then "Process" is clicked on the re-queued X, which pops X and re-inserts
it right after A — shifting the record at the worker thread's stored
index 1 from A to X.  When A's encode finishes, the completion handler
marks X "Completed" through the stale index, clears the flag while A is
still "Processing", and dispatches B. -/
def c1Trace : List Op := [
  Op.add true true "X" "" "" "",
  Op.finish (Except.error "boom"),
  Op.add true true "A" "" "" "",
  Op.processIt 1,
  Op.add true true "B" "" "" "",
  Op.retry 0,
  Op.processIt 0,
  Op.finish (Except.ok "out")]

/-- C1: the claimed invariant — at most one job in the Active/Processing
state at every reachable state — fails on the code.  Running the
UI-reachable event sequence `c1Trace` from the initial state leaves two
jobs (A and B) simultaneously in the "Processing" state, because the
worker thread addresses the queue by a stale integer index after a
promote-style reorder. -/
theorem C1_single_flight_violated :
    countProcessing (run c1Trace initState) = 2
    ∧ (run c1Trace initState).queue.map (fun it => (it.videoPath, it.status))
      = [("A", Status.processing), ("X", Status.completed), ("B", Status.processing)] := by
  decide

/-- Event prefix producing a "Completed" job: submit one video (it
auto-starts) and let the encode succeed. -/
def c6Prefix : List Op := [Op.add true true "a.mp4" "t" "" "", Op.finish (Except.ok "o")]

/-- C6 counterexample: `retry_item` is not restricted to jobs in the
Failed state.  After `c6Prefix` the only job is "Completed", yet
`retry_item(0)` is accepted: the job is reset and (the scheduler being
idle) immediately re-dispatched to "Processing" instead of the call being
rejected. -/
theorem C6_counterexample :
    ((run c6Prefix initState).queue.map QItem.status = [Status.completed])
    ∧ ((retryItem 0 (run c6Prefix initState)).queue.map QItem.status
        = [Status.processing]) := by
  decide

/-- C6 (amended): `retry_item` at any in-range index — whatever the job's
current state — resets it to "Queued", clears the stored error, resets
progress to 0 regardless of the prior value, and, when no job is active,
immediately starts processing that job (so it ends "Processing" with the
flag set and the worker holding its index); when a job is active the reset
item stays "Queued" and the flag is untouched. -/
theorem C6_retry_resets (s : SchedState) (i : Nat) (hi : i < s.queue.length) :
    (s.currentlyProcessing = true →
      (retryItem i s).queue[i]?
        = some { s.queue.get ⟨i, hi⟩ with
                 status := Status.queued, progress := 0, error := none }
      ∧ (retryItem i s).currentlyProcessing = true)
    ∧ (s.currentlyProcessing = false →
      (retryItem i s).queue[i]?
        = some { s.queue.get ⟨i, hi⟩ with
                 status := Status.processing, progress := 0, error := none }
      ∧ (retryItem i s).currentlyProcessing = true
      ∧ (retryItem i s).threadIdx = some i) := by
  unfold retryItem
  rw [dif_pos hi]
  constructor
  · intro hcp
    simp only [hcp, if_true]
    exact ⟨List.getElem?_set_eq_of_lt _ (by simpa using hi), by trivial⟩
  · intro hcp
    simp only [hcp, Bool.false_eq_true, if_false]
    unfold processItem
    have hlen : i < (s.queue.set i { s.queue.get ⟨i, hi⟩ with
        status := Status.queued, progress := 0, error := none }).length := by
      simpa using hi
    rw [dif_pos hlen]
    simp only [hcp, Bool.false_eq_true, if_false]
    refine ⟨?_, by trivial, by trivial⟩
    rw [List.set_set]
    have hget : (s.queue.set i { s.queue.get ⟨i, hi⟩ with
        status := Status.queued, progress := 0, error := none }).get ⟨i, hlen⟩
        = { s.queue.get ⟨i, hi⟩ with
            status := Status.queued, progress := 0, error := none } := by
      simp
    rw [hget]
    exact List.getElem?_set_eq_of_lt _ (by simpa using hi)

/-- A single completed job with a second retried while idle: instantiates
`C6_retry_resets` at a concrete state. -/
theorem C6_retry_resets_witness :
    let s : SchedState :=
      ⟨[{ videoPath := "a", title := "a", channelId := "", channelName := "",
          status := Status.failed, progress := 40, outputPath := none,
          error := some "boom" }], false, none⟩
    (retryItem 0 s).queue[0]?
      = some { videoPath := "a", title := "a", channelId := "", channelName := "",
               status := Status.processing, progress := 0, outputPath := none,
               error := none }
    ∧ (retryItem 0 s).currentlyProcessing = true
    ∧ (retryItem 0 s).threadIdx = some 0 :=
  (C6_retry_resets _ 0 (by decide)).2 rfl


/-- The queue record `add_video` appends for a given submission. -/
def submittedItem (videoPath title channelId channelName : String) : QItem :=
  { videoPath := videoPath,
    title := if title = "" then basename videoPath else title,
    channelId := channelId, channelName := channelName,
    status := Status.queued, progress := 0, outputPath := none, error := none }

/-- Event sequence for the C7 counterexample: one job is submitted, runs
and fails; a second (distinct) video is then submitted while the
scheduler is idle. -/
def c7Trace : List Op := [
  Op.add true true "x.mp4" "t" "" "",
  Op.finish (Except.error "boom"),
  Op.add true true "a.mp4" "t" "" ""]

/-- C7 counterexample: the claim says a submission with no Active job
immediately dispatches the oldest Queued job.  After `c7Trace` no job is
Active (the flag is down) and the freshly submitted job is the oldest
Queued one, yet it was not dispatched: `add_video` only auto-starts when
the queue has exactly one item, and here the failed job still occupies a
slot. -/
theorem C7_counterexample :
    ((run c7Trace initState).currentlyProcessing = false)
    ∧ ((run c7Trace initState).queue.map QItem.status
        = [Status.failed, Status.queued]) := by
  decide

/-- C7 (amended): a valid submission appends the job in the Queued state;
it is immediately dispatched only when additionally the queue was empty
before the submission (the new job is the sole item).  When the queue was
non-empty or a job is active, the new job just stays Queued and the flag
is unchanged. -/
theorem C7_submit_appends (path title cid cname : String) (s : SchedState)
    (hdup : ∀ it ∈ s.queue, it.videoPath ≠ path) :
    (s.queue = [] ∧ s.currentlyProcessing = false →
      addVideo true true path title cid cname s
        = { queue := [{ submittedItem path title cid cname with
                        status := Status.processing }],
            currentlyProcessing := true, threadIdx := some 0 })
    ∧ (s.queue ≠ [] ∨ s.currentlyProcessing = true →
      addVideo true true path title cid cname s
        = { s with queue := s.queue ++ [submittedItem path title cid cname] }) := by
  have hany : s.queue.any (fun it => it.videoPath == path) = false := by
    rw [List.any_eq_false]
    intro it hit
    simpa using hdup it hit
  constructor
  · rintro ⟨hq, hcp⟩
    rcases s with ⟨q, c, t⟩
    simp only at hq hcp
    subst hq
    subst hcp
    simp [addVideo, hany, processNext, processItem, findIdxP, submittedItem]
  · intro hne
    simp only [addVideo, hany, Bool.true_eq_false, Bool.false_eq_true, if_false]
    rw [if_neg]
    · rfl
    · rintro ⟨h1, h2⟩
      rcases hne with hne | hne
      · exact hne (by simpa using h2)
      · rw [hne] at h1
        exact absurd h1 (by simp)

/-- Instantiates `C7_submit_appends`: both the empty-idle dispatch case
and the non-empty no-dispatch case at concrete states. -/
theorem C7_submit_appends_witness :
    (addVideo true true "a.mp4" "t" "" "" initState
      = { queue := [{ submittedItem "a.mp4" "t" "" "" with
                      status := Status.processing }],
          currentlyProcessing := true, threadIdx := some 0 })
    ∧ (addVideo true true "b.mp4" "t" "" ""
        ⟨[{ submittedItem "a.mp4" "t" "" "" with status := Status.failed }], false, none⟩
      = { queue := [{ submittedItem "a.mp4" "t" "" "" with status := Status.failed },
                    submittedItem "b.mp4" "t" "" ""],
          currentlyProcessing := false, threadIdx := none }) :=
  ⟨(C7_submit_appends "a.mp4" "t" "" "" initState (by intro it h; simp [initState] at h)).1
      ⟨rfl, rfl⟩,
   (C7_submit_appends "b.mp4" "t" "" ""
      ⟨[{ submittedItem "a.mp4" "t" "" "" with status := Status.failed }], false, none⟩
      (by intro it h; simp at h; subst h; decide)).2 (Or.inl (by simp))⟩

/-- C9 counterexample: the claim says a submission whose input file does
not exist is still enqueued.  In the code `add_video` returns before
appending anything: submitting a missing file leaves the state untouched
(here: the queue stays empty). -/
theorem C9_counterexample :
    addVideo false true "missing.mp4" "t" "" "" initState = initState := by
  decide

/-- C9 (amended): a submission whose input file is missing is rejected by
`add_video` and leaves the scheduler state unchanged; separately, when a
job's input file is missing at dispatch time, `process_video` raises the
input-not-found error before the encoder command is ever assembled, so
the job fails without the encoder being invoked. -/
theorem C9_missing_input :
    (∀ (probeOk : Bool) (path title cid cname : String) (s : SchedState),
      addVideo false probeOk path title cid cname s = s)
    ∧ (∀ (fsOk : String → Bool) (ffp : String) (p : Processing) (wp : Option String)
        (inp outp : String) (d : Option ℚ) (rs : ℚ) (sx sy : ℤ),
      fsOk inp = false →
      processVideo fsOk ffp p wp inp outp d rs sx sy
        = Except.error ("Input video not found: " ++ inp)) := by
  constructor
  · intro probeOk path title cid cname s
    rfl
  · intro fsOk ffp p wp inp outp d rs sx sy hfs
    simp [processVideo, hfs]

/-- Instantiates `C9_missing_input` at a concrete missing input. -/
theorem C9_missing_input_witness :
    processVideo (fun _ => false) "ffmpeg" {} none "gone.mp4" "o.mp4" none 1 0 0
      = Except.error ("Input video not found: " ++ "gone.mp4") :=
  C9_missing_input.2 (fun _ => false) "ffmpeg" {} none "gone.mp4" "o.mp4" none 1 0 0 rfl



/-- The `-crf` value token sits at a fixed offset from the end of the
assembled command, whatever the optional segments contain. -/
theorem crfToken (ffp : String) (p : Processing) (wp : Option String)
    (fsOk : String → Bool) (inp outp : String) (d : Option ℚ) (rs : ℚ) (sx sy : ℤ) :
    ((buildCommand ffp p wp fsOk inp outp d rs sx sy).reverse)[11]? = some (Arg.z p.crf) := by
  simp only [buildCommand, List.append_assoc, List.reverse_append, List.reverse_cons,
    List.reverse_nil, List.nil_append, List.cons_append, List.append_nil]
  rfl

/-- C2 counterexample: the claim says the encoder invocation of an
already-submitted job is unaffected by configuration edits made before
dispatch.  The queue record built at submission (`submittedItem`) carries
no settings at all, and the invocation built at dispatch reads the global
configuration at that moment: for the same submitted job, dispatching
under the original configuration and under one mutated with
`config.set("processing.crf", 24)` yields different commands. -/
theorem C2_counterexample :
    dispatchCommand {} (fun _ => true) (submittedItem "a.mp4" "t" "" "")
        "o.mp4" (some 10) 1 0 0
      ≠ dispatchCommand (setCrf {} 24) (fun _ => true) (submittedItem "a.mp4" "t" "" "")
        "o.mp4" (some 10) 1 0 0 := by
  intro h
  simp only [dispatchCommand, processVideo, submittedItem, if_true] at h
  have h1 := crfToken "ffmpeg" ({} : AppConfig).processing (getWatermark {} "")
    (fun _ => true) "a.mp4" "o.mp4" (some 10) 1 0 0
  have h2 := crfToken (setCrf {} 24).ffmpeg_path (setCrf {} 24).processing
    (getWatermark (setCrf {} 24) "") (fun _ => true) "a.mp4" "o.mp4" (some 10) 1 0 0
  dsimp only [setCrf] at h h1 h2
  simp only [Except.ok.injEq] at h
  rw [h] at h1
  rw [h1] at h2
  simp at h2

/-- C2 (amended): effect settings are not snapshotted at submission — the
queue record stores only path/title/channel — and the invocation is built
from the configuration as read at dispatch time, so a configuration
mutation between submission and dispatch changes the queued job's encoder
invocation: dispatching the same job under a configuration whose
`processing.crf` was changed yields a different command. -/
theorem C2_settings_read_at_dispatch (cfg : AppConfig) (c : ℤ) (fsOk : String → Bool)
    (it : QItem) (outp : String) (d : Option ℚ) (rs : ℚ) (sx sy : ℤ)
    (hc : c ≠ cfg.processing.crf) (hfs : fsOk it.videoPath = true) :
    dispatchCommand (setCrf cfg c) fsOk it outp d rs sx sy
      ≠ dispatchCommand cfg fsOk it outp d rs sx sy := by
  intro h
  simp only [dispatchCommand, processVideo, hfs, if_true, Except.ok.injEq] at h
  have h1 := crfToken (setCrf cfg c).ffmpeg_path (setCrf cfg c).processing
    (getWatermark (setCrf cfg c) it.channelId) fsOk it.videoPath outp d rs sx sy
  have h2 := crfToken cfg.ffmpeg_path cfg.processing
    (getWatermark cfg it.channelId) fsOk it.videoPath outp d rs sx sy
  rw [h] at h1
  rw [h1] at h2
  simp only [setCrf, Option.some.injEq, Arg.z.injEq] at h2
  exact hc h2

/-- Instantiates `C2_settings_read_at_dispatch`: mutating `crf` from the
default 23 to 24 after submitting `a.mp4` changes its invocation. -/
theorem C2_settings_read_at_dispatch_witness :
    dispatchCommand (setCrf {} 24) (fun _ => true) (submittedItem "a.mp4" "" "" "")
        "o.mp4" none 1 0 0
      ≠ dispatchCommand {} (fun _ => true) (submittedItem "a.mp4" "" "" "")
        "o.mp4" none 1 0 0 :=
  C2_settings_read_at_dispatch {} 24 (fun _ => true) (submittedItem "a.mp4" "" "" "")
    "o.mp4" none 1 0 0 (by decide) rfl

/-- A settings valuation with every optional stage disabled and
integer-valued knobs (used for concrete evaluation). -/
def plainSettings : Processing :=
  { color_saturation := 1, brightness := 1, denoise_strength := 0, sharpness := 0,
    watermark_opacity := 1, speed_randomization := 0, zoom_factor := 1, pixel_shift := 0,
    audio_normalization := true, crf := 23, bitrate := "2M", threads := 4 }

/-- C4 counterexample: the claim says every input whose duration could be
probed gets a duration cap.  A successfully probed duration of `0` is
falsy in the source's `if duration:` guard, so the assembled command
contains no `-t` option at all. -/
theorem C4_counterexample :
    Arg.s "-t" ∉ buildCommand "ffmpeg" plainSettings none (fun _ => false)
      "in.mp4" "out.mp4" (some 0) 1 0 0 := by
  decide

/-- C4 (amended): the command contains the hard output-duration cap
`-t <duration>` exactly when the probed duration is known and nonzero; a
probed duration of zero is treated like an unknown one (no cap token is
emitted, the command coincides with the unknown-duration command). -/
theorem C4_duration_cap (ffp : String) (p : Processing) (wp : Option String)
    (fsOk : String → Bool) (inp outp : String) (rs : ℚ) (sx sy : ℤ) :
    (∀ d : ℚ, d ≠ 0 →
      List.IsInfix [Arg.s "-t", Arg.q d]
        (buildCommand ffp p wp fsOk inp outp (some d) rs sx sy))
    ∧ buildCommand ffp p wp fsOk inp outp (some 0) rs sx sy
        = buildCommand ffp p wp fsOk inp outp none rs sx sy := by
  constructor
  · intro d hd
    have hcmd : buildCommand ffp p wp fsOk inp outp (some d) rs sx sy
        = ([Arg.s ffp, Arg.s "-y", Arg.s "-i", Arg.s inp]
            ++ ((match wp with
                | some w => if (w != "") && fsOk w then [Arg.s "-i", Arg.s w] else []
                | none => [])
              ++ [Arg.s "-filter_complex",
                  Arg.filters (buildFilterChain p (wmCond wp fsOk) rs sx sy).1,
                  Arg.s "-map",
                  Arg.s ("[" ++ (buildFilterChain p (wmCond wp fsOk) rs sx sy).2 ++ "]"),
                  Arg.s "-map", Arg.s "0:a"]))
          ++ [Arg.s "-t", Arg.q d]
          ++ ((if p.audio_normalization then
                [Arg.s "-af", Arg.s "loudnorm=I=-16:LRA=11:TP=-1.5"] else [])
            ++ [Arg.s "-c:v", Arg.s "libx264", Arg.s "-preset", Arg.s "medium",
                Arg.s "-crf", Arg.z p.crf, Arg.s "-b:v", Arg.s p.bitrate,
                Arg.s "-c:a", Arg.s "aac", Arg.s "-b:a", Arg.s "192k",
                Arg.s "-threads", Arg.z p.threads, Arg.s "-movflags", Arg.s "+faststart",
                Arg.s outp]) := by
      simp only [buildCommand, if_neg hd, List.append_assoc]
    rw [hcmd]
    exact List.infix_append _ _ _
  · simp [buildCommand]

/-- Instantiates `C4_duration_cap` at the probed duration 1. -/
theorem C4_duration_cap_witness :
    List.IsInfix [Arg.s "-t", Arg.q 1]
      (buildCommand "ffmpeg" plainSettings none (fun _ => false)
        "in.mp4" "out.mp4" (some 1) 1 0 0) :=
  (C4_duration_cap "ffmpeg" plainSettings none (fun _ => false)
    "in.mp4" "out.mp4" 1 0 0).1 1 one_ne_zero

/-- C3: for every settings object the builder emits the stages in the
fixed order canvas, saturation, brightness, denoise, sharpen, branding
overlay, speed perturbation, zoom, pixel shift; the canvas stage is
always present and first, the conditional stages appear exactly under the
claimed guards, every emitted stage's input label is the previous emitted
stage's output label (continuity from the primary input "0:v"), and the
final emitted stage's output label is the label the assembled command
maps as the encoder's video output. -/
theorem C3_filter_graph (p : Processing) (wp : Option String) (fsOk : String → Bool)
    (rs : ℚ) (sx sy : ℤ) :
    ((buildFilterChain p (wmCond wp fsOk) rs sx sy).1.map Stage.kind
      = [FilterKind.canvas, FilterKind.saturation p.color_saturation,
         FilterKind.brightness (p.brightness - 1)]
        ++ (if p.denoise_strength > 0 then [FilterKind.denoise p.denoise_strength] else [])
        ++ (if p.sharpness > 0 then [FilterKind.sharpen p.sharpness] else [])
        ++ (if wmCond wp fsOk then [FilterKind.overlay p.watermark_opacity] else [])
        ++ (if p.speed_randomization > 0 then [FilterKind.setpts (1 / rs)] else [])
        ++ (if p.zoom_factor > 1 then [FilterKind.zoomscale p.zoom_factor] else [])
        ++ (if p.pixel_shift > 0 then [FilterKind.cropshift sx sy] else [])
      ∧ chained "0:v" (buildFilterChain p (wmCond wp fsOk) rs sx sy).1
      ∧ (buildFilterChain p (wmCond wp fsOk) rs sx sy).1.getLast?.map Stage.out
          = some (buildFilterChain p (wmCond wp fsOk) rs sx sy).2)
    ∧ (∀ (ffp inp outp : String) (d : Option ℚ),
        Arg.s ("[" ++ (buildFilterChain p (wmCond wp fsOk) rs sx sy).2 ++ "]")
          ∈ buildCommand ffp p wp fsOk inp outp d rs sx sy) := by
  constructor
  · unfold buildFilterChain
    split_ifs <;> simp [emit, chained]
  · intro ffp inp outp d
    simp [buildCommand, List.mem_append]


/-- `process_next` from an idle state: pick the first "Queued" item. -/
theorem processNext_idle (q : List QItem) (t : Option Nat) :
    processNext ⟨q, false, t⟩ =
      (match findIdxP (fun it => it.status == Status.queued) q with
      | some i => processItem i ⟨q, false, t⟩
      | none => (⟨q, false, t⟩ : SchedState)) := by
  simp [processNext]

/-- `process_item` from an idle state on a valid index: the target becomes
"Processing" with progress 0, the flag rises and the worker gets the index. -/
theorem processItem_idle (q : List QItem) (t : Option Nat) (i : Nat) (h : i < q.length) :
    processItem i ⟨q, false, t⟩ =
      ⟨q.set i { q.get ⟨i, h⟩ with status := Status.processing, progress := 0 },
       true, some i⟩ := by
  simp only [processItem]
  rw [dif_pos h]
  simp

/-- Worker-thread failure completion, unfolded: the record at the stored
index becomes "Failed", the flag drops, and when a "Queued" item remains
`process_next` runs on the new state. -/
theorem finish_error (s : SchedState) (j : Nat) (e : String)
    (ht : s.threadIdx = some j) (hj : j < s.queue.length) :
    finish (Except.error e) s =
      (if (s.queue.set j { s.queue.get ⟨j, hj⟩ with
            status := Status.failed, progress := 0, error := some e }).any
            (fun it => it.status == Status.queued)
       then processNext ⟨s.queue.set j { s.queue.get ⟨j, hj⟩ with
            status := Status.failed, progress := 0, error := some e }, false, none⟩
       else ⟨s.queue.set j { s.queue.get ⟨j, hj⟩ with
            status := Status.failed, progress := 0, error := some e }, false, none⟩) := by
  simp only [finish, ht]
  rw [dif_pos hj]

/-- C5: whenever the external encoder exits non-zero, the executor
deletes any partially written output file (when one exists on disk),
never reaches thumbnail generation, and raises an error carrying that
exit code; the completion handler marks the job record at the worker's
stored index "Failed" with that error message, and if any "Queued" job
remains the first one is dispatched to "Processing". -/
theorem C5_encode_failure (rc : ℤ) (ex : Bool) (op : String)
    (s : SchedState) (j : Nat)
    (hrc : rc ≠ 0) (ht : s.threadIdx = some j) (hj : j < s.queue.length) :
    (runEncoder rc ex op).thumbnailAttempted = false
    ∧ (runEncoder rc ex op).outputRemoved = ex
    ∧ (runEncoder rc ex op).err = some (encodeErrMsg rc)
    ∧ (finish (Except.error (encodeErrMsg rc)) s).queue[j]?.map
        (fun it => (it.status, it.error))
        = some (Status.failed, some (encodeErrMsg rc))
    ∧ (∀ k, findIdxP (fun it => it.status == Status.queued)
          (s.queue.set j { s.queue.get ⟨j, hj⟩ with
            status := Status.failed, progress := 0,
            error := some (encodeErrMsg rc) }) = some k →
        (finish (Except.error (encodeErrMsg rc)) s).queue[k]?.map QItem.status
          = some Status.processing
        ∧ (finish (Except.error (encodeErrMsg rc)) s).currentlyProcessing = true) := by
  have hfin := finish_error s j (encodeErrMsg rc) ht hj
  have hq'j : (s.queue.set j { s.queue.get ⟨j, hj⟩ with
      status := Status.failed, progress := 0, error := some (encodeErrMsg rc) })[j]?
      = some { s.queue.get ⟨j, hj⟩ with
        status := Status.failed, progress := 0, error := some (encodeErrMsg rc) } :=
    List.getElem?_set_eq_of_lt _ (by simpa using hj)
  refine ⟨by simp [runEncoder, hrc], by simp [runEncoder, hrc],
    by simp [runEncoder, hrc], ?_, ?_⟩
  · rw [hfin]
    split_ifs with hany
    · rw [processNext_idle]
      cases hfind : findIdxP (fun it => it.status == Status.queued)
          (s.queue.set j { s.queue.get ⟨j, hj⟩ with
            status := Status.failed, progress := 0,
            error := some (encodeErrMsg rc) }) with
      | none =>
        simp only [hfind]
        rw [hq'j]
        rfl
      | some k =>
        have hk := findIdxP_lt_length hfind
        have hjk : k ≠ j := by
          intro hkj
          subst hkj
          have hkq := findIdxP_true hfind hk
          simp only [List.get_eq_getElem, List.getElem_set_self] at hkq
          simp at hkq
        simp only [hfind]
        rw [processItem_idle _ _ _ hk]
        dsimp only
        rw [List.getElem?_set_ne hjk, hq'j]
        rfl
    · dsimp only
      rw [hq'j]
      rfl
  · intro k hk
    have hany := findIdxP_any hk
    rw [hfin, if_pos hany, processNext_idle]
    simp only [hk]
    have hklen := findIdxP_lt_length hk
    rw [processItem_idle _ _ _ hklen]
    constructor
    · dsimp only
      rw [List.getElem?_set_eq_of_lt _ (by simpa using hklen)]
      rfl
    · rfl

/-- A job mid-encode, for instantiating `C5_encode_failure`. -/
def c5JobA : QItem :=
  { videoPath := "a.mp4", title := "a", channelId := "", channelName := "",
    status := Status.processing, progress := 70, outputPath := none, error := none }

/-- A queued job behind `c5JobA`. -/
def c5JobB : QItem :=
  { videoPath := "b.mp4", title := "b", channelId := "", channelName := "",
    status := Status.queued, progress := 0, outputPath := none, error := none }

/-- Instantiates `C5_encode_failure`: exit code 1 with a queued job
waiting — the failed job gets the message with code 1 and the waiting job
is dispatched. -/
theorem C5_encode_failure_witness :
    (runEncoder 1 true "out.mp4").thumbnailAttempted = false
    ∧ (runEncoder 1 true "out.mp4").outputRemoved = true
    ∧ (runEncoder 1 true "out.mp4").err = some (encodeErrMsg 1)
    ∧ (finish (Except.error (encodeErrMsg 1))
        ⟨[c5JobA, c5JobB], true, some 0⟩).queue[0]?.map
        (fun it => (it.status, it.error)) = some (Status.failed, some (encodeErrMsg 1))
    ∧ (finish (Except.error (encodeErrMsg 1))
        ⟨[c5JobA, c5JobB], true, some 0⟩).queue[1]?.map QItem.status
        = some Status.processing
    ∧ (finish (Except.error (encodeErrMsg 1))
        ⟨[c5JobA, c5JobB], true, some 0⟩).currentlyProcessing = true := by
  have h := C5_encode_failure 1 true "out.mp4" ⟨[c5JobA, c5JobB], true, some 0⟩ 0
    (by decide) rfl (by decide)
  exact ⟨h.1, h.2.1, h.2.2.1, h.2.2.2.1,
    (h.2.2.2.2 1 (by decide)).1, (h.2.2.2.2 1 (by decide)).2⟩

/-- `process_item` while a job is processing: the target is popped and
re-inserted right after the first "Processing" item (or at the front when
none exists); flag and thread index are untouched. -/
theorem processItem_busy (q : List QItem) (t : Option Nat) (i : Nat) (h : i < q.length) :
    processItem i ⟨q, true, t⟩ =
      ⟨(match findIdxP (fun x => x.status == Status.processing) (q.eraseIdx i) with
        | some k => insertAt (k + 1) (q.get ⟨i, h⟩) (q.eraseIdx i)
        | none => q.get ⟨i, h⟩ :: q.eraseIdx i), true, t⟩ := by
  simp only [processItem]
  rw [dif_pos h]
  simp

/-- Submit A (auto-dispatched), then B and C, then promote C while A is
active, then let A finish successfully. -/
def c8Pre : List Op := [Op.add true true "A" "" "" "", Op.add true true "B" "" "" "",
  Op.add true true "C" "" "" "", Op.processIt 2, Op.finish (Except.ok "oA")]

/-- C8: promoting (clicking "Process" on) a job while another is active
re-inserts the target immediately after the active job — items before the
target keep their order, items after it keep theirs (first conjunct, the
two index cases); promoting while idle dispatches the target itself
immediately (second conjunct); and in the concrete scenario
submit A, B, C then promote C, the execution order after A completes is
C and then B (third conjunct). -/
theorem C8_promote :
    (∀ (s : SchedState) (as bs : List QItem) (act : QItem) (i : Nat)
      (hq : s.queue = as ++ act :: bs)
      (hcp : s.currentlyProcessing = true)
      (hact : act.status = Status.processing)
      (has : ∀ x ∈ as, x.status ≠ Status.processing)
      (hi : i < s.queue.length),
      ((i < as.length →
        (processItem i s).queue
          = as.eraseIdx i ++ act :: s.queue.get ⟨i, hi⟩ :: bs)
      ∧ (as.length < i →
        (processItem i s).queue
          = as ++ act :: s.queue.get ⟨i, hi⟩ :: bs.eraseIdx (i - as.length - 1))))
    ∧ (∀ (s : SchedState) (i : Nat) (hi : i < s.queue.length),
        s.currentlyProcessing = false →
        (processItem i s).queue
          = s.queue.set i { s.queue.get ⟨i, hi⟩ with
              status := Status.processing, progress := 0 }
        ∧ (processItem i s).currentlyProcessing = true
        ∧ (processItem i s).threadIdx = some i)
    ∧ (((run c8Pre initState).queue.map (fun it => (it.videoPath, it.status))
        = [("A", Status.completed), ("C", Status.processing), ("B", Status.queued)])
      ∧ ((run (c8Pre ++ [Op.finish (Except.ok "oC")]) initState).queue.map
          (fun it => (it.videoPath, it.status))
        = [("A", Status.completed), ("C", Status.completed), ("B", Status.processing)])) := by
  refine ⟨?_, ?_, by decide, by decide⟩
  · intro s as bs act i hq hcp hact has hi
    obtain ⟨q, c, t⟩ := s
    simp only at hq hcp hi ⊢
    subst hq
    subst hcp
    rw [processItem_busy _ _ _ hi]
    have pact : (act.status == Status.processing) = true := by simp [hact]
    constructor
    · intro h1
      have he : (as ++ act :: bs).eraseIdx i = as.eraseIdx i ++ act :: bs :=
        List.eraseIdx_append_of_lt_length h1 _
      have hpre : ∀ x ∈ as.eraseIdx i, (x.status == Status.processing) = false :=
        fun x hx => beq_false_of_ne (has x (List.mem_of_mem_eraseIdx hx))
      have hfind := findIdxP_prefix bs hpre pact
      rw [he, hfind]
      dsimp only
      exact insertAt_succ_append _ _ _ _
    · intro h2
      have hle : as.length ≤ i := Nat.le_of_lt h2
      obtain ⟨m, hm⟩ : ∃ m, i - as.length = m + 1 :=
        ⟨i - as.length - 1, by omega⟩
      have he : (as ++ act :: bs).eraseIdx i = as ++ act :: bs.eraseIdx m := by
        rw [List.eraseIdx_append_of_length_le hle, hm, List.eraseIdx_cons_succ]
      have hpre : ∀ x ∈ as, (x.status == Status.processing) = false :=
        fun x hx => beq_false_of_ne (has x hx)
      have hfind := findIdxP_prefix (bs.eraseIdx m) hpre pact
      rw [he, hfind]
      dsimp only
      rw [insertAt_succ_append]
      have : i - as.length - 1 = m := by omega
      rw [this]
  · intro s i hi hcp
    obtain ⟨q, c, t⟩ := s
    simp only at hcp hi ⊢
    subst hcp
    rw [processItem_idle _ _ _ hi]
    exact ⟨rfl, rfl, rfl⟩

/-- Instantiates `C8_promote`: a busy promote of the last job in a
4-job queue lands it right behind the active job, and an idle promote of
job "b" dispatches "b" itself. -/
theorem C8_promote_witness :
    (processItem 3 ⟨[{ submittedItem "x" "" "" "" with status := Status.failed },
        { submittedItem "a" "" "" "" with status := Status.processing },
        submittedItem "b" "" "" "", submittedItem "c" "" "" ""], true, some 1⟩).queue
      = [{ submittedItem "x" "" "" "" with status := Status.failed },
         { submittedItem "a" "" "" "" with status := Status.processing },
         submittedItem "c" "" "" "", submittedItem "b" "" "" ""]
    ∧ (processItem 1 ⟨[submittedItem "a" "" "" "", submittedItem "b" "" "" ""],
        false, none⟩).queue
      = [submittedItem "a" "" "" "",
         { submittedItem "b" "" "" "" with status := Status.processing }]
    ∧ (processItem 1 ⟨[submittedItem "a" "" "" "", submittedItem "b" "" "" ""],
        false, none⟩).currentlyProcessing = true
    ∧ (processItem 1 ⟨[submittedItem "a" "" "" "", submittedItem "b" "" "" ""],
        false, none⟩).threadIdx = some 1 := by
  have h1 := (C8_promote.1
    ⟨[{ submittedItem "x" "" "" "" with status := Status.failed },
      { submittedItem "a" "" "" "" with status := Status.processing },
      submittedItem "b" "" "" "", submittedItem "c" "" "" ""], true, some 1⟩
    [{ submittedItem "x" "" "" "" with status := Status.failed }]
    [submittedItem "b" "" "" "", submittedItem "c" "" "" ""]
    { submittedItem "a" "" "" "" with status := Status.processing }
    3 rfl rfl rfl (by decide) (by decide)).2 (by decide)
  have h2 := C8_promote.2.1
    ⟨[submittedItem "a" "" "" "", submittedItem "b" "" "" ""], false, none⟩ 1
    (by decide) rfl
  exact ⟨h1, h2.1, h2.2.1, h2.2.2⟩

/-- The input video paths of the queued records, in order. -/
def pathsOf (s : SchedState) : List String := s.queue.map (fun it => it.videoPath)

/-- The busy-promote queue rewrite (pop plus re-insert) is a permutation
of the original queue. -/
theorem queue_busy_perm (q : List QItem) (i : Nat) (h : i < q.length) :
    List.Perm
      (match findIdxP (fun x => x.status == Status.processing) (q.eraseIdx i) with
        | some k => insertAt (k + 1) (q.get ⟨i, h⟩) (q.eraseIdx i)
        | none => q.get ⟨i, h⟩ :: q.eraseIdx i) q := by
  cases hf : findIdxP (fun x => x.status == Status.processing) (q.eraseIdx i) with
  | some k => exact (insertAt_perm _ _ _).trans (perm_get_cons_eraseIdx q i h).symm
  | none => exact (perm_get_cons_eraseIdx q i h).symm

/-- `process_item` preserves distinctness of the queued video paths. -/
theorem nodup_processItem (i : Nat) (s : SchedState) (h : (pathsOf s).Nodup) :
    (pathsOf (processItem i s)).Nodup := by
  obtain ⟨q, c, t⟩ := s
  by_cases hi : i < q.length
  · cases c
    · rw [processItem_idle q t i hi]
      unfold pathsOf at *
      dsimp only at *
      have hf : ({ q.get ⟨i, hi⟩ with
          status := Status.processing, progress := 0 } : QItem).videoPath
          = (q.get ⟨i, hi⟩).videoPath := rfl
      rw [map_set_same (fun it : QItem => it.videoPath) q i
        { q.get ⟨i, hi⟩ with status := Status.processing, progress := 0 } hi hf]
      exact h
    · rw [processItem_busy q t i hi]
      unfold pathsOf at *
      dsimp only at *
      exact (((queue_busy_perm q i hi).map
        (fun it : QItem => it.videoPath)).nodup_iff).mpr h
  · unfold processItem
    rw [dif_neg (by simpa using hi)]
    exact h

/-- `process_next` preserves distinctness of the queued video paths. -/
theorem nodup_processNext (s : SchedState) (h : (pathsOf s).Nodup) :
    (pathsOf (processNext s)).Nodup := by
  unfold processNext
  split
  · exact h
  · split
    · exact nodup_processItem _ _ h
    · exact h

/-- `add_video` preserves distinctness of the queued video paths: every
rejection path leaves the queue unchanged and the append path is guarded
by the duplicate check. -/
theorem nodup_addVideo (fsOk probeOk : Bool) (p t cid cn : String) (s : SchedState)
    (h : (pathsOf s).Nodup) : (pathsOf (addVideo fsOk probeOk p t cid cn s)).Nodup := by
  unfold addVideo
  split
  · exact h
  split
  · exact h
  split
  · exact h
  rename_i hany
  have hnotmem : p ∉ pathsOf s := by
    intro hp
    apply hany
    rw [List.any_eq_true]
    unfold pathsOf at hp
    obtain ⟨it, hit, hpe⟩ := List.mem_map.mp hp
    exact ⟨it, hit, by simp [hpe]⟩
  have hnew : ∀ tt : String, (pathsOf { s with queue := s.queue ++
      [{ videoPath := p, title := tt, channelId := cid,
         channelName := cn, status := Status.queued, progress := 0,
         outputPath := none, error := none }] }).Nodup := by
    intro tt
    unfold pathsOf at *
    simp only [List.map_append, List.map_cons, List.map_nil]
    rw [List.nodup_append]
    refine ⟨h, by simp, ?_⟩
    intro a ha hap
    rw [List.mem_singleton] at hap
    subst hap
    exact hnotmem ha
  dsimp only
  generalize (if t = "" then basename p else t) = tt
  split
  · exact nodup_processNext _ (hnew tt)
  · exact hnew tt

/-- `retry_item` preserves distinctness of the queued video paths. -/
theorem nodup_retryItem (i : Nat) (s : SchedState) (h : (pathsOf s).Nodup) :
    (pathsOf (retryItem i s)).Nodup := by
  unfold retryItem
  split
  · rename_i hi
    dsimp only
    have h' : (pathsOf { s with queue := s.queue.set i { s.queue.get ⟨i, hi⟩ with
        status := Status.queued, progress := 0, error := none } }).Nodup := by
      unfold pathsOf at *
      dsimp only at *
      have hf : ({ s.queue.get ⟨i, hi⟩ with
          status := Status.queued, progress := 0, error := none } : QItem).videoPath
          = (s.queue.get ⟨i, hi⟩).videoPath := rfl
      rw [map_set_same (fun it : QItem => it.videoPath) s.queue i
        { s.queue.get ⟨i, hi⟩ with
          status := Status.queued, progress := 0, error := none } hi hf]
      exact h
    split
    · exact h'
    · exact nodup_processItem _ _ h'
  · exact h

/-- `remove_item` preserves distinctness of the queued video paths. -/
theorem nodup_removeItem (i : Nat) (s : SchedState) (h : (pathsOf s).Nodup) :
    (pathsOf (removeItem i s)).Nodup := by
  unfold removeItem
  split
  · dsimp only
    split
    · unfold pathsOf at *
      dsimp only at *
      exact List.Nodup.sublist ((List.eraseIdx_sublist _ _).map _) h
    · exact h
  · exact h

/-- `clear_queue` preserves distinctness of the queued video paths. -/
theorem nodup_clearQueue (s : SchedState) (h : (pathsOf s).Nodup) :
    (pathsOf (clearQueue s)).Nodup := by
  unfold clearQueue
  split
  · exact h
  · simp [pathsOf]

/-- Thread completion preserves distinctness of the queued video paths. -/
theorem nodup_finish (o : Except String String) (s : SchedState) (h : (pathsOf s).Nodup) :
    (pathsOf (finish o s)).Nodup := by
  obtain ⟨q, c, t⟩ := s
  cases t with
  | none => exact h
  | some j =>
    simp only [finish]
    by_cases hj : j < q.length
    · rw [dif_pos (by simpa using hj)]
      have h1 : ∀ it' : QItem, it'.videoPath = (q.get ⟨j, hj⟩).videoPath →
          ((q.set j it').map (fun it => it.videoPath)).Nodup := by
        intro it' hp
        rw [map_set_same _ _ _ _ hj hp]
        exact h
      cases o with
      | ok out =>
        split
        · exact nodup_processNext _ (h1 _ rfl)
        · exact h1 _ rfl
      | error e =>
        split
        · exact nodup_processNext _ (h1 _ rfl)
        · exact h1 _ rfl
    · rw [dif_neg (by simpa using hj)]
      split
      · exact nodup_processNext _ h
      · exact h

/-- Every scheduler event preserves distinctness of the queued video
paths. -/
theorem nodup_applyOp (op : Op) (s : SchedState) (h : (pathsOf s).Nodup) :
    (pathsOf (applyOp op s)).Nodup := by
  cases op with
  | add fsOk probeOk p t cid cn => exact nodup_addVideo fsOk probeOk p t cid cn s h
  | processIt i => exact nodup_processItem i s h
  | next => exact nodup_processNext s h
  | retry i => exact nodup_retryItem i s h
  | remove i => exact nodup_removeItem i s h
  | clear => exact nodup_clearQueue s h
  | finish o => exact nodup_finish o s h

/-- C10: starting from the empty queue, every reachable state has
pairwise distinct input video paths (no two queued jobs share a path),
and submitting a path equal to an existing queue item's path is rejected,
leaving the whole scheduler state unchanged. -/
theorem C10_unique_paths :
    (∀ ops : List Op, (pathsOf (run ops initState)).Nodup)
    ∧ (∀ (fsOk probeOk : Bool) (path title cid cname : String) (s : SchedState),
        (∃ it ∈ s.queue, it.videoPath = path) →
        addVideo fsOk probeOk path title cid cname s = s) := by
  constructor
  · intro ops
    have hgen : ∀ (l : List Op) (s : SchedState), (pathsOf s).Nodup →
        (pathsOf (run l s)).Nodup := by
      intro l
      induction l with
      | nil => intro s h; exact h
      | cons op rest ih => intro s h; exact ih _ (nodup_applyOp op s h)
    exact hgen ops initState (by simp [pathsOf, initState])
  · rintro fsOk probeOk path title cid cname s ⟨it, hit, hpath⟩
    have hany : s.queue.any (fun x => x.videoPath == path) = true := by
      rw [List.any_eq_true]
      exact ⟨it, hit, by simp [hpath]⟩
    cases fsOk <;> cases probeOk <;> simp [addVideo, hany]

/-- Instantiates `C10_unique_paths`: a two-submission run keeps paths
distinct, and re-submitting "a.mp4" against a queue already holding it is
a no-op. -/
theorem C10_unique_paths_witness :
    (pathsOf (run [Op.add true true "a.mp4" "t" "" "",
      Op.add true true "b.mp4" "t" "" ""] initState)).Nodup
    ∧ addVideo true true "a.mp4" "t2" "" ""
        ⟨[submittedItem "a.mp4" "t" "" ""], false, none⟩
      = ⟨[submittedItem "a.mp4" "t" "" ""], false, none⟩ :=
  ⟨C10_unique_paths.1 [Op.add true true "a.mp4" "t" "" "",
      Op.add true true "b.mp4" "t" "" ""],
   C10_unique_paths.2 true true "a.mp4" "t2" "" ""
      ⟨[submittedItem "a.mp4" "t" "" ""], false, none⟩
      ⟨submittedItem "a.mp4" "t" "" "", by simp, rfl⟩⟩

end Tiktok2Shorts
